import Mathlib

/-!
Shallow embedding of `src/main.py` (frenchnewspapers corpus-analysis script).

Conventions of the embedding:
* Article texts are modelled after tokenization: NLTK's `word_tokenize` is an
  external library, so a text is represented directly as its list of word
  tokens (`List String`), and `tokenize_text` lowercases them as the source
  does.
* `dateutil.parser.parse` is an external library; a date string is modelled by
  the outcome of parsing it: `some d` for a string that parses to the calendar
  date `d`, `none` for an unparseable string (on which `dateutil` raises
  `ValueError`).
* Python exceptions are modelled with `Except PyErr`; a bare `except:` clause
  corresponds to catching any `PyErr`.
* Python `dict` preserves insertion order and updates values in place, so a
  dict is an association list and `dictSet` overwrites the first matching key
  in place (appending a fresh key at the end).
-/

deriving instance DecidableEq for Except

/-- Python exception kinds raised by the modelled code paths. -/
inductive PyErr where
  | valueError : PyErr
  | typeError : PyErr
deriving DecidableEq, Repr

/-- A calendar date as produced by `dateutil.parser.parse`. -/
structure Date where
  year : Nat
  month : Nat
  day : Nat
deriving DecidableEq, Repr

/-- An article record as built by `get_articles_metadata` in `main.py`:
`{'file_name': ..., 'journal': ..., 'date': ..., 'tokens': ...}`.
The `date` field holds the parse outcome of the article's date string. -/
structure Article where
  file_name : String
  journal : String
  date : Option Date
  tokens : List String
deriving DecidableEq, Repr

/-- Values stored in the index built by `sort_by_date`: either a pair
`(target token count, total tokens)` for a date key, or the target-token
string stored under the literal key `'year-month-day'`. -/
abbrev Value := (Nat × Nat) ⊕ String

/-- The index built by `sort_by_date`: a Python dict modelled as an
insertion-ordered association list. -/
abbrev Index := List (String × Value)

/-- Python `index.get(key)`. -/
def dictGet (d : Index) (k : String) : Option Value :=
  (d.find? (fun kv => kv.1 = k)).map (fun kv => kv.2)

/-- Python `index[key] = v`: overwrite in place if the key exists, else append. -/
def dictSet (d : Index) (k : String) (v : Value) : Index :=
  match d with
  | [] => [(k, v)]
  | kv :: rest => if kv.1 = k then (k, v) :: rest else kv :: dictSet rest k v

/-- `main.py` line 168: `parse_dates` parses a date string and formats the key
`'%s-%s-%s' % (year, month, day)`.  An unparseable string makes
`dateutil.parser.parse` raise `ValueError`. -/
def dateKey (d : Date) : String :=
  toString d.year ++ "-" ++ toString d.month ++ "-" ++ toString d.day

/-- `parse_dates` on the modelled date string (`Option Date`, see header). -/
def parse_dates : Option Date → Except PyErr String
  | none => Except.error PyErr.valueError
  | some d => Except.ok (dateKey d)

/-- `main.py` line 120: `single_token_count` returns `FreqDist(text)[token]`,
the number of occurrences of `token` in the token list. -/
def single_token_count (text : List String) (token : String) : Nat :=
  text.count token

/-- One iteration of the `for article in articles` loop of `sort_by_date`
(`main.py` lines 181-190).  The final statement of the body is
`index['year-month-day'] = token`.  If the value found at a date key were the
token string, Python's `index[key][0] + ...` would raise `TypeError`. -/
def sbdStep (token : String) (index : Index) (article : Article) :
    Except PyErr Index :=
  match parse_dates article.date with
  | Except.error e => Except.error e
  | Except.ok key =>
      match dictGet index key with
      | none =>
          Except.ok (dictSet
            (dictSet index key
              (Sum.inl (single_token_count article.tokens token,
                        article.tokens.length)))
            "year-month-day" (Sum.inr token))
      | some (Sum.inl (c, t)) =>
          Except.ok (dictSet
            (dictSet index key
              (Sum.inl (c + single_token_count article.tokens token,
                        t + article.tokens.length)))
            "year-month-day" (Sum.inr token))
      | some (Sum.inr _) => Except.error PyErr.typeError

/-- The loop of `sort_by_date`, threading the index through the articles;
an exception raised by an iteration propagates. -/
def sbdLoop (token : String) (articles : List Article) (index : Index) :
    Except PyErr Index :=
  match articles with
  | [] => Except.ok index
  | a :: rest =>
      match sbdStep token index a with
      | Except.error e => Except.error e
      | Except.ok index' => sbdLoop token rest index'

/-- `main.py` lines 174-191: `sort_by_date` starts from the empty dict. -/
def sort_by_date (articles : List Article) (token : String) :
    Except PyErr Index :=
  sbdLoop token articles []

/-- The articles of `articles` whose date parses to the key `k` — the
articles that `sort_by_date` accumulates into the bucket of `k`. -/
def articlesWithKey (articles : List Article) (k : String) : List Article :=
  articles.filter (fun a => parse_dates a.date = Except.ok k)

/-- The effect of one article on the bucket of its own date key: initialize
`(occurrences, total)` when absent, add both counts when present. -/
def addBucket (tok : String) (acc : Option (Nat × Nat)) (a : Article) :
    Option (Nat × Nat) :=
  match acc with
  | none => some (single_token_count a.tokens tok, a.tokens.length)
  | some (c, t) =>
      some (c + single_token_count a.tokens tok, t + a.tokens.length)

/-- A cell of a CSV row produced by `dict_to_list`: either the computed
ratio `values[0] / values[1]` (Python float division, modelled exactly as a
rational), or the raw dict value appended when the division raised. -/
inductive RowVal where
  | ratio : ℚ → RowVal
  | raw : Value → RowVal
deriving DecidableEq, Repr

/-- A row `[date_key, value]` of the list built by `dict_to_list`. -/
abbrev Row := String × RowVal

/-- Python `values[0] / values[1]` inside the `try:` of `dict_to_list`:
on a `(count, total)` pair it divides (raising `ZeroDivisionError` when
`total == 0`, modelled as `none`), the quotient being the exact rational
`count / total`; on the token string it indexes characters and divides them,
which raises (`IndexError` or `TypeError`), also `none`. -/
def tryRatio : Value → Option ℚ
  | Sum.inl (a, b) => if b = 0 then none else some (Rat.divInt a b)
  | Sum.inr _ => none

/-- One iteration of the `for (date_key, values) in a_dict.items()` loop of
`dict_to_list` (`main.py` lines 201-207): a successful division appends
`[date_key, tf_idf]`, a raised one runs `rows.insert(0, [date_key, values])`. -/
def rowStep (rows : List Row) (kv : String × Value) : List Row :=
  match tryRatio kv.2 with
  | some r => rows ++ [(kv.1, RowVal.ratio r)]
  | none => (kv.1, RowVal.raw kv.2) :: rows

/-- The accumulated row list after the loop of `dict_to_list`, before sorting. -/
def rowsAcc (d : Index) : List Row :=
  d.foldl rowStep []

/-- Python's `<` on strings: lexicographic comparison of the code-point
sequences.  Written as a structural recursion on the character lists. -/
def charListLtB : List Char → List Char → Bool
  | [], [] => false
  | [], _ :: _ => true
  | _ :: _, [] => false
  | a :: as, b :: bs =>
      if a < b then true else if b < a then false else charListLtB as bs

/-- Python's `s < t` on strings. -/
def strLtB (s t : String) : Bool :=
  charListLtB s.data t.data

/-- Stable insertion of a row into a key-sorted list: the row goes before the
first element whose key is not smaller.  Keys are compared with Python's `<`
on strings (`strLtB`). -/
def insertRow (a : Row) : List Row → List Row
  | [] => [a]
  | x :: xs => if strLtB x.1 a.1 then x :: insertRow a xs else a :: x :: xs

/-- `rows.sort(key=operator.itemgetter(0))` (`main.py` line 209): Python's
sort is a stable ascending sort by the key, so it is extensionally the stable
insertion sort by lexicographic string comparison. -/
def sortRows : List Row → List Row
  | [] => []
  | a :: l => insertRow a (sortRows l)

/-- `main.py` lines 197-212, `dict_to_list`: build the rows, sort them by the
string date key, then `rows.insert(0, rows.pop())` moves the last row to the
front.  `rows.pop()` on an empty list raises `IndexError`, modelled as `none`. -/
def dict_to_list (d : Index) : Option (List Row) :=
  let sorted := sortRows (rowsAcc d)
  match sorted.getLast? with
  | none => none
  | some last => some (last :: sorted.dropLast)

/-- Rendering of a row value into its CSV cell text.  A ratio cell is the
decimal/encoded form of the number (an injective rendering standing for
Python's `str(float)`, which round-trips); a raw pair prints as a Python
tuple; the raw token string prints as itself. -/
def renderVal : RowVal → String
  | RowVal.ratio q => toString q
  | RowVal.raw (Sum.inl (a, b)) =>
      "(" ++ toString a ++ ", " ++ toString b ++ ")"
  | RowVal.raw (Sum.inr s) => s

/-- The two CSV cells `[date_key, value]` of a row, as written by
`csvwriter.writerow(row)`. -/
def rowFields (r : Row) : List String :=
  [r.1, renderVal r.2]

/-- A CSV line: the cells joined by the `,` delimiter (`csv.writer` with
`delimiter=','` writes delimiter-free cells verbatim). -/
def csvLine (fields : List String) : List Char :=
  List.intercalate [','] (fields.map String.data)

/-- `main.py` lines 215-222, `csv_dump`: `dict_to_list` runs first (its
exceptions propagate before any file output), then each row becomes a CSV
line. -/
def csv_dump (d : Index) : Option (List (List Char)) :=
  (dict_to_list d).map (fun rows => rows.map (fun r => csvLine (rowFields r)))

/-- Reading one line of `results.csv` back: `csv.reader` splits on the `,`
delimiter. -/
def csvParseLine (line : List Char) : List String :=
  (line.splitOn ',').map List.asString

/-- A metadata row from the external spreadsheet, as used by
`get_articles_metadata`: `row['filename']`, `row['newspaper name']`,
`row['date']`. -/
structure MetaRow where
  filename : String
  newspaper_name : String
  date : Option Date
deriving DecidableEq, Repr

/-- `main.py` line 93: `tokenize_text` lowercases every word token of the
text (`word_tokenize` being modelled by the text already split into words). -/
def tokenize_text (file : List String) : List String :=
  file.map String.toLower

/-- The article dict appended by `get_articles_metadata` when a metadata row
matches an article's filename (`main.py` lines 73-77). -/
def mkEntry (filename : String) (row : MetaRow) (text : List String) :
    Article :=
  { file_name := filename
    journal := row.newspaper_name
    date := row.date
    tokens := tokenize_text text }

/-- The inner `for row in metadata` loop of `get_articles_metadata`: the
entries appended for one `(filename, text)` article, one per metadata row
whose filename matches. -/
def matchedEntries (article : String × List String)
    (metadata : List MetaRow) : List Article :=
  (metadata.filter (fun row => row.filename = article.1)).map
    (fun row => mkEntry article.1 row article.2)

/-- `main.py` lines 64-84, `get_articles_metadata`: for each article
`(filename, text)` and each metadata row, append an entry when the filenames
match; the other branches only print (in debug mode) or pass. -/
def get_articles_metadata (list_of_articles : List (String × List String))
    (metadata : List MetaRow) : List Article :=
  list_of_articles.foldl
    (fun acc article => acc ++ matchedEntries article metadata)
    []

/-- The single row contributed by one dict entry in the loop of
`dict_to_list`: the ratio row on a successful division, the raw
`[date_key, values]` row otherwise. -/
def rowOf (kv : String × Value) : Row :=
  match tryRatio kv.2 with
  | some r => (kv.1, RowVal.ratio r)
  | none => (kv.1, RowVal.raw kv.2)

/-- `x` precedes `y` in the sorted row list: `x`'s key is not greater than
`y`'s key in Python's string order. -/
def rowKeyLe (x y : Row) : Prop :=
  strLtB y.1 x.1 = false

instance (x y : Row) : Decidable (rowKeyLe x y) := by
  rw [rowKeyLe]; infer_instance

/-- Calendar order on dates: `d₁` is an earlier calendar date than `d₂`. -/
def calLt (d₁ d₂ : Date) : Prop :=
  d₁.year < d₂.year ∨
    (d₁.year = d₂.year ∧
      (d₁.month < d₂.month ∨ (d₁.month = d₂.month ∧ d₁.day < d₂.day)))

instance (d₁ d₂ : Date) : Decidable (calLt d₁ d₂) := by
  rw [calLt]; infer_instance

/-- Fixture: two parseable articles sharing the date 1908-05-31. -/
def exArts : List Article :=
  [⟨"a", "j", some ⟨1908, 5, 31⟩, ["crime", "x", "crime"]⟩,
   ⟨"b", "j", some ⟨1908, 5, 31⟩, ["crime"]⟩]

/-- Fixture: an article whose date string does not parse. -/
def exBad : Article :=
  ⟨"bad", "j", none, ["crime"]⟩

/-- Fixture: an index as produced by `sort_by_date` on two articles whose
unpadded date keys sort lexicographically against calendar order. -/
def exIndexC2 : Index :=
  [("1908-10-2", Sum.inl (1, 1)),
   ("year-month-day", Sum.inr "crime"),
   ("1908-2-1", Sum.inl (1, 2))]

/-- Fixture: an index with a zero-total bucket. -/
def exIndexC4 : Index :=
  [("1900-1-1", Sum.inl (3, 0)), ("1900-1-2", Sum.inl (1, 2))]

/-- Fixture: input articles for the metadata join. -/
def exRawArts : List (String × List String) :=
  [("a1908", ["Le", "Crime"]), ("nomatch", ["x"])]

/-- Fixture: metadata rows, two of which match the filename `a1908`. -/
def exMeta : List MetaRow :=
  [⟨"a1908", "Le Matin", some ⟨1908, 5, 31⟩⟩,
   ⟨"other", "Le Figaro", some ⟨1908, 6, 1⟩⟩,
   ⟨"a1908", "Le Matin", some ⟨1908, 6, 2⟩⟩]

/-! ### Dictionary lemmas -/

theorem dictGet_dictSet_self (d : Index) (k : String) (v : Value) :
    dictGet (dictSet d k v) k = some v := by
  induction d with
  | nil => simp [dictGet, dictSet, List.find?]
  | cons kv rest ih =>
      by_cases h : kv.1 = k
      · simp [dictGet, dictSet, h, List.find?]
      · simp only [dictSet, if_neg h]
        simpa [dictGet, List.find?, h] using ih

theorem dictGet_dictSet_ne (d : Index) (k k' : String) (v : Value)
    (h : k ≠ k') : dictGet (dictSet d k v) k' = dictGet d k' := by
  induction d with
  | nil => simp [dictGet, dictSet, List.find?, h]
  | cons kv rest ih =>
      by_cases hkv : kv.1 = k
      · simp only [dictSet, if_pos hkv]
        subst hkv
        simp [dictGet, List.find?, h]
      · simp only [dictSet, if_neg hkv]
        by_cases hkv' : kv.1 = k'
        · simp [dictGet, List.find?, hkv']
        · simpa [dictGet, List.find?, hkv'] using ih


/-! ### The `sort_by_date` bucket invariant (claim C1) -/

theorem sbdStep_ok_new (tok : String) (idx : Index) (a : Article)
    (ka : String) (hpd : parse_dates a.date = Except.ok ka)
    (hget : dictGet idx ka = none) :
    sbdStep tok idx a = Except.ok (dictSet
      (dictSet idx ka
        (Sum.inl (single_token_count a.tokens tok, a.tokens.length)))
      "year-month-day" (Sum.inr tok)) := by
  simp [sbdStep, hpd, hget]

theorem sbdStep_ok_add (tok : String) (idx : Index) (a : Article)
    (ka : String) (c t : Nat) (hpd : parse_dates a.date = Except.ok ka)
    (hget : dictGet idx ka = some (Sum.inl (c, t))) :
    sbdStep tok idx a = Except.ok (dictSet
      (dictSet idx ka
        (Sum.inl (c + single_token_count a.tokens tok,
                  t + a.tokens.length)))
      "year-month-day" (Sum.inr tok)) := by
  simp [sbdStep, hpd, hget]

theorem articlesWithKey_cons_eq (a : Article) (rest : List Article)
    (ka : String) (hpd : parse_dates a.date = Except.ok ka) :
    articlesWithKey (a :: rest) ka = a :: articlesWithKey rest ka := by
  simp [articlesWithKey, List.filter_cons, hpd]

theorem articlesWithKey_cons_ne (a : Article) (rest : List Article)
    (k ka : String) (hpd : parse_dates a.date = Except.ok ka)
    (hka : ka ≠ k) :
    articlesWithKey (a :: rest) k = articlesWithKey rest k := by
  simp [articlesWithKey, List.filter_cons, hpd, hka]

theorem sbdLoop_dictGet (tok k : String) (hk : k ≠ "year-month-day") :
    ∀ (arts : List Article) (idx out : Index) (init : Option (Nat × Nat)),
      sbdLoop tok arts idx = Except.ok out →
      dictGet idx k = init.map Sum.inl →
      dictGet out k =
        ((articlesWithKey arts k).foldl (addBucket tok) init).map Sum.inl := by
  intro arts
  induction arts with
  | nil =>
      intro idx out init hloop hinit
      simp only [sbdLoop] at hloop
      cases hloop
      simpa [articlesWithKey] using hinit
  | cons a rest ih =>
      intro idx out init hloop hinit
      cases hpd : parse_dates a.date with
      | error e =>
          simp only [sbdLoop, sbdStep, hpd] at hloop
          cases hloop
      | ok ka =>
          cases hget : dictGet idx ka with
          | none =>
              simp only [sbdLoop,
                sbdStep_ok_new tok idx a ka hpd hget] at hloop
              by_cases hka : ka = k
              · subst hka
                have hinit0 : init = none := by
                  cases init with
                  | none => rfl
                  | some p => rw [hget] at hinit; simp at hinit
                subst hinit0
                have hidx₁ :
                    dictGet (dictSet
                      (dictSet idx ka
                        (Sum.inl (single_token_count a.tokens tok,
                                  a.tokens.length)))
                      "year-month-day" (Sum.inr tok)) ka =
                    (some (single_token_count a.tokens tok,
                           a.tokens.length)).map Sum.inl := by
                  rw [dictGet_dictSet_ne _ _ _ _ (Ne.symm hk),
                      dictGet_dictSet_self]
                  rfl
                have hmain := ih _ out _ hloop hidx₁
                rw [hmain, articlesWithKey_cons_eq a rest ka hpd]
                simp [List.foldl_cons, addBucket]
              · have hidx₁ :
                    dictGet (dictSet
                      (dictSet idx ka
                        (Sum.inl (single_token_count a.tokens tok,
                                  a.tokens.length)))
                      "year-month-day" (Sum.inr tok)) k =
                    init.map Sum.inl := by
                  rw [dictGet_dictSet_ne _ _ _ _ (Ne.symm hk),
                      dictGet_dictSet_ne _ _ _ _ hka]
                  exact hinit
                have hmain := ih _ out init hloop hidx₁
                rw [hmain, articlesWithKey_cons_ne a rest k ka hpd hka]
          | some v =>
              cases v with
              | inl p =>
                  obtain ⟨c, t⟩ := p
                  simp only [sbdLoop,
                    sbdStep_ok_add tok idx a ka c t hpd hget] at hloop
                  by_cases hka : ka = k
                  · subst hka
                    have hinit0 : init = some (c, t) := by
                      cases init with
                      | none => rw [hget] at hinit; simp at hinit
                      | some q =>
                          rw [hget] at hinit
                          simp only [Option.map_some'] at hinit
                          cases hinit
                          rfl
                    subst hinit0
                    have hidx₁ :
                        dictGet (dictSet
                          (dictSet idx ka
                            (Sum.inl (c + single_token_count a.tokens tok,
                                      t + a.tokens.length)))
                          "year-month-day" (Sum.inr tok)) ka =
                        (some (c + single_token_count a.tokens tok,
                               t + a.tokens.length)).map Sum.inl := by
                      rw [dictGet_dictSet_ne _ _ _ _ (Ne.symm hk),
                          dictGet_dictSet_self]
                      rfl
                    have hmain := ih _ out _ hloop hidx₁
                    rw [hmain, articlesWithKey_cons_eq a rest ka hpd]
                    simp [List.foldl_cons, addBucket]
                  · have hidx₁ :
                        dictGet (dictSet
                          (dictSet idx ka
                            (Sum.inl (c + single_token_count a.tokens tok,
                                      t + a.tokens.length)))
                          "year-month-day" (Sum.inr tok)) k =
                        init.map Sum.inl := by
                      rw [dictGet_dictSet_ne _ _ _ _ (Ne.symm hk),
                          dictGet_dictSet_ne _ _ _ _ hka]
                      exact hinit
                    have hmain := ih _ out init hloop hidx₁
                    rw [hmain, articlesWithKey_cons_ne a rest k ka hpd hka]
              | inr s =>
                  simp only [sbdLoop, sbdStep, hpd, hget] at hloop
                  cases hloop

theorem addBucket_foldl_some (tok : String) :
    ∀ (l : List Article) (c t : Nat),
      l.foldl (addBucket tok) (some (c, t)) =
        some (c + (l.map (fun a => single_token_count a.tokens tok)).sum,
              t + (l.map (fun a => a.tokens.length)).sum) := by
  intro l
  induction l with
  | nil => intro c t; simp
  | cons a l ih =>
      intro c t
      simp only [List.foldl_cons, addBucket, List.map_cons, List.sum_cons]
      rw [ih]
      simp [Nat.add_assoc]

theorem addBucket_foldl_none (tok : String) (l : List Article) (p : Nat × Nat)
    (h : l.foldl (addBucket tok) none = some p) :
    p = ((l.map (fun a => single_token_count a.tokens tok)).sum,
         (l.map (fun a => a.tokens.length)).sum) := by
  cases l with
  | nil => simp [List.foldl] at h
  | cons a l =>
      simp only [List.foldl_cons, addBucket] at h
      rw [addBucket_foldl_some] at h
      injection h with h
      simp [← h]

/-- C1: for every article list and target token, whenever `sort_by_date`
returns an index, each date key of that index (every key other than the
literal `'year-month-day'`) is mapped to the pair whose first component is
the sum of the occurrences of the target token in the token lists of the
articles whose parsed date is that key, and whose second component is the
sum of those articles' token-list lengths. -/
theorem c1_sort_by_date_buckets (arts : List Article) (tok k : String)
    (idx : Index) (v : Value)
    (hok : sort_by_date arts tok = Except.ok idx)
    (hk : k ≠ "year-month-day")
    (hv : dictGet idx k = some v) :
    v = Sum.inl
      (((articlesWithKey arts k).map
          (fun a => single_token_count a.tokens tok)).sum,
       ((articlesWithKey arts k).map (fun a => a.tokens.length)).sum) := by
  have h := sbdLoop_dictGet tok k hk arts [] idx none hok (by simp [dictGet])
  rw [hv] at h
  cases hfold : (articlesWithKey arts k).foldl (addBucket tok) none with
  | none => rw [hfold] at h; simp at h
  | some p =>
      rw [hfold] at h
      simp only [Option.map_some'] at h
      injection h with h
      rw [h, addBucket_foldl_none tok _ p hfold]

theorem c1_sort_by_date_buckets_witness :
    (Sum.inl (3, 4) : Value) = Sum.inl
      (((articlesWithKey exArts "1908-5-31").map
          (fun a => single_token_count a.tokens "crime")).sum,
       ((articlesWithKey exArts "1908-5-31").map
          (fun a => a.tokens.length)).sum) :=
  c1_sort_by_date_buckets exArts "crime" "1908-5-31"
    [("1908-5-31", Sum.inl (3, 4)), ("year-month-day", Sum.inr "crime")]
    (Sum.inl (3, 4)) (by decide) (by decide) (by decide)

/-! ### The `'year-month-day'` entry (claim C9) -/

theorem sbdStep_special (tok : String) (idx : Index) (a : Article)
    (idx' : Index) (h : sbdStep tok idx a = Except.ok idx') :
    dictGet idx' "year-month-day" = some (Sum.inr tok) := by
  cases hpd : parse_dates a.date with
  | error e => simp [sbdStep, hpd] at h
  | ok ka =>
      cases hget : dictGet idx ka with
      | none =>
          rw [sbdStep_ok_new tok idx a ka hpd hget] at h
          injection h with h
          rw [← h, dictGet_dictSet_self]
      | some v =>
          cases v with
          | inl p =>
              obtain ⟨c, t⟩ := p
              rw [sbdStep_ok_add tok idx a ka c t hpd hget] at h
              injection h with h
              rw [← h, dictGet_dictSet_self]
          | inr s => simp [sbdStep, hpd, hget] at h

theorem sbdLoop_special (tok : String) :
    ∀ (arts : List Article) (idx out : Index),
      sbdLoop tok arts idx = Except.ok out →
      dictGet idx "year-month-day" = some (Sum.inr tok) →
      dictGet out "year-month-day" = some (Sum.inr tok) := by
  intro arts
  induction arts with
  | nil =>
      intro idx out h hsp
      simp only [sbdLoop] at h
      cases h
      exact hsp
  | cons a rest ih =>
      intro idx out h hsp
      cases hstep : sbdStep tok idx a with
      | error e =>
          simp only [sbdLoop, hstep] at h
          cases h
      | ok idx₁ =>
          simp only [sbdLoop, hstep] at h
          exact ih idx₁ out h (sbdStep_special tok idx a idx₁ hstep)

/-- C9: whenever `sort_by_date` returns an index for a non-empty article
list, that index contains — besides the date buckets — the literal key
`'year-month-day'` mapped to the target-token string, so the mapping is not
purely date-keyed and its values are not uniformly count pairs. -/
theorem c9_year_month_day_key (arts : List Article) (tok : String)
    (idx : Index) (hne : arts ≠ [])
    (hok : sort_by_date arts tok = Except.ok idx) :
    dictGet idx "year-month-day" = some (Sum.inr tok) := by
  cases arts with
  | nil => exact absurd rfl hne
  | cons a rest =>
      rw [sort_by_date] at hok
      cases hstep : sbdStep tok [] a with
      | error e =>
          simp only [sbdLoop, hstep] at hok
          cases hok
      | ok idx₁ =>
          simp only [sbdLoop, hstep] at hok
          exact sbdLoop_special tok rest idx₁ idx hok
            (sbdStep_special tok [] a idx₁ hstep)

theorem c9_year_month_day_key_witness :
    dictGet [("1908-5-31", Sum.inl (3, 4)),
             ("year-month-day", Sum.inr "crime")] "year-month-day" =
      some (Sum.inr "crime") :=
  c9_year_month_day_key exArts "crime"
    [("1908-5-31", Sum.inl (3, 4)), ("year-month-day", Sum.inr "crime")]
    (by decide) (by decide)

/-! ### Unparseable dates propagate out of the aggregation (claims C3, C5) -/

theorem sbdLoop_error_of_bad (tok : String) :
    ∀ (arts : List Article) (a : Article), a ∈ arts → a.date = none →
      ∀ idx, ∃ e, sbdLoop tok arts idx = Except.error e := by
  intro arts
  induction arts with
  | nil => intro a ha; cases ha
  | cons b rest ih =>
      intro a ha hbad idx
      rcases List.mem_cons.mp ha with h | h
      · subst h
        exact ⟨PyErr.valueError, by simp [sbdLoop, sbdStep, parse_dates, hbad]⟩
      · cases hstep : sbdStep tok idx b with
        | error e => exact ⟨e, by simp [sbdLoop, hstep]⟩
        | ok idx₁ =>
            obtain ⟨e, he⟩ := ih a h hbad idx₁
            exact ⟨e, by simp [sbdLoop, hstep, he]⟩

/-- C5: for an article whose date string is malformed, `parse_dates` raises
`ValueError`, and the error propagates out of the whole aggregation: when
such an article is in the list, `sort_by_date` ends in an exception (no
recovery is performed). -/
theorem c5_parse_dates_raises (arts : List Article) (a : Article)
    (tok : String) (ha : a ∈ arts) (hbad : a.date = none) :
    parse_dates a.date = Except.error PyErr.valueError ∧
      ∃ e, sort_by_date arts tok = Except.error e := by
  refine ⟨by rw [hbad]; rfl, ?_⟩
  exact sbdLoop_error_of_bad tok arts a ha hbad []

theorem c5_parse_dates_raises_witness :
    parse_dates exBad.date = Except.error PyErr.valueError ∧
      ∃ e, sort_by_date [exBad] "crime" = Except.error e :=
  c5_parse_dates_raises [exBad] exBad "crime" (by decide) (by decide)

/-- C3 counterexample: a list containing one article with an unparseable
date string and one perfectly good article.  `sort_by_date` raises
`ValueError` instead of skipping the offending article — the good article's
bucket is not returned. -/
theorem c3_counterexample :
    sort_by_date [exBad, ⟨"a", "j", some ⟨1908, 5, 31⟩, ["crime"]⟩]
      "crime" = Except.error PyErr.valueError := by decide

/-- C3 amended: the aggregation does fail on an unparseable date — if any
article's date string does not parse, `sort_by_date` raises and returns no
buckets at all (nothing is skipped). -/
theorem c3_amended_no_recovery (arts : List Article) (a : Article)
    (tok : String) (ha : a ∈ arts) (hbad : a.date = none) :
    ∃ e, sort_by_date arts tok = Except.error e :=
  sbdLoop_error_of_bad tok arts a ha hbad []

theorem c3_amended_no_recovery_witness :
    ∃ e, sort_by_date [exBad] "crime" = Except.error e :=
  c3_amended_no_recovery [exBad] exBad "crime" (by decide) (by decide)

/-! ### The metadata join (claims C6, C10) -/

theorem gam_acc (metadata : List MetaRow) :
    ∀ (arts : List (String × List String)) (acc : List Article),
      arts.foldl (fun acc article => acc ++ matchedEntries article metadata)
          acc =
        acc ++ arts.foldl
          (fun acc article => acc ++ matchedEntries article metadata) [] := by
  intro arts
  induction arts with
  | nil => intro acc; simp
  | cons a rest ih =>
      intro acc
      simp only [List.foldl_cons]
      rw [ih (acc ++ matchedEntries a metadata),
          ih (([] : List Article) ++ matchedEntries a metadata)]
      simp [List.append_assoc]

theorem gam_cons (a : String × List String)
    (rest : List (String × List String)) (metadata : List MetaRow) :
    get_articles_metadata (a :: rest) metadata =
      matchedEntries a metadata ++ get_articles_metadata rest metadata := by
  rw [get_articles_metadata, List.foldl_cons, gam_acc]
  rfl

theorem mem_matchedEntries (article : String × List String)
    (metadata : List MetaRow) (e : Article)
    (he : e ∈ matchedEntries article metadata) :
    ∃ row ∈ metadata, row.filename = article.1 ∧
      e = mkEntry article.1 row article.2 := by
  simp only [matchedEntries, List.mem_map, List.mem_filter] at he
  obtain ⟨row, ⟨hrow, hfn⟩, hmk⟩ := he
  exact ⟨row, hrow, by simpa using hfn, hmk.symm⟩

/-- C6: for every input list of `(filename, text)` pairs and metadata row
set, an article whose filename matches no metadata row produces no entry of
the join's output, while an article matching a row appears in the output
with that row's newspaper name and date (and its tokenized text) attached. -/
theorem c6_metadata_join (arts : List (String × List String))
    (metadata : List MetaRow) (fn : String) :
    ((∀ row ∈ metadata, row.filename ≠ fn) →
      ∀ e ∈ get_articles_metadata arts metadata, e.file_name ≠ fn) ∧
    (∀ (txt : List String) (row : MetaRow),
      (fn, txt) ∈ arts → row ∈ metadata → row.filename = fn →
      mkEntry fn row txt ∈ get_articles_metadata arts metadata) := by
  induction arts with
  | nil =>
      refine ⟨fun _ e he => absurd he ?_, fun txt row ha => absurd ha ?_⟩ <;>
        simp [get_articles_metadata]
  | cons a rest ih =>
      constructor
      · intro hno e he
        rw [gam_cons] at he
        rcases List.mem_append.mp he with h | h
        · obtain ⟨row, hrow, hfil, hmk⟩ := mem_matchedEntries a metadata e h
          rw [hmk]
          simpa [mkEntry, ← hfil] using hno row hrow
        · exact ih.1 hno e h
      · intro txt row ha hrow hfil
        rw [gam_cons]
        rcases List.mem_cons.mp ha with h | h
        · refine List.mem_append.mpr (Or.inl ?_)
          rw [← h]
          simp only [matchedEntries]
          exact List.mem_map.mpr
            ⟨row, List.mem_filter.mpr ⟨hrow, by simpa using hfil⟩, rfl⟩
        · exact List.mem_append.mpr (Or.inr (ih.2 txt row h hrow hfil))

theorem c6_metadata_join_witness :
    (∀ e ∈ get_articles_metadata exRawArts exMeta,
        e.file_name ≠ "nomatch") ∧
      mkEntry "a1908" ⟨"a1908", "Le Matin", some ⟨1908, 5, 31⟩⟩
          ["Le", "Crime"] ∈
        get_articles_metadata exRawArts exMeta :=
  ⟨(c6_metadata_join exRawArts exMeta "nomatch").1 (by decide),
   (c6_metadata_join exRawArts exMeta "a1908").2 ["Le", "Crime"]
     ⟨"a1908", "Le Matin", some ⟨1908, 5, 31⟩⟩
     (by decide) (by decide) (by decide)⟩

theorem matchedEntries_countP_eq (a : String × List String)
    (metadata : List MetaRow) (fn : String) (ha : a.1 = fn) :
    (matchedEntries a metadata).countP (fun e => e.file_name = fn) =
      metadata.countP (fun r => r.filename = fn) := by
  subst ha
  have hall : ∀ e ∈ matchedEntries a metadata, decide (e.file_name = a.1) = true := by
    intro e he
    obtain ⟨row, _, _, hmk⟩ := mem_matchedEntries a metadata e he
    simp [hmk, mkEntry]
  calc (matchedEntries a metadata).countP (fun e => e.file_name = a.1)
      = (matchedEntries a metadata).length := List.countP_eq_length.mpr hall
    _ = (metadata.filter (fun r => r.filename = a.1)).length := by
        rw [matchedEntries, List.length_map]
    _ = metadata.countP (fun r => r.filename = a.1) :=
        (List.countP_eq_length_filter _ _).symm

theorem matchedEntries_countP_ne (a : String × List String)
    (metadata : List MetaRow) (fn : String) (ha : a.1 ≠ fn) :
    (matchedEntries a metadata).countP (fun e => e.file_name = fn) = 0 := by
  refine List.countP_eq_zero.mpr ?_
  intro e he
  obtain ⟨row, _, _, hmk⟩ := mem_matchedEntries a metadata e he
  simp [hmk, mkEntry, ha]

theorem gam_countP (arts : List (String × List String))
    (metadata : List MetaRow) (fn : String) :
    (get_articles_metadata arts metadata).countP
        (fun e => e.file_name = fn) =
      arts.countP (fun a => a.1 = fn) *
        metadata.countP (fun r => r.filename = fn) := by
  induction arts with
  | nil => simp [get_articles_metadata]
  | cons a rest ih =>
      rw [gam_cons, List.countP_append, ih]
      by_cases ha : a.1 = fn
      · rw [matchedEntries_countP_eq a metadata fn ha]
        simp [List.countP_cons, ha]
        ring
      · rw [matchedEntries_countP_ne a metadata fn ha]
        simp [List.countP_cons, ha]

/-- C10: an input article whose filename equals the filename of `k ≥ 2`
distinct metadata rows is appended once per matching row: when the input
list has exactly one article with that filename, the join's output has
exactly `k` entries for it, so its tokens are counted `k` times downstream. -/
theorem c10_duplicate_rows (arts : List (String × List String))
    (metadata : List MetaRow) (fn : String) (k : Nat)
    (h1 : arts.countP (fun a => a.1 = fn) = 1)
    (h2 : metadata.countP (fun r => r.filename = fn) = k)
    (_hk : 2 ≤ k) :
    (get_articles_metadata arts metadata).countP
        (fun e => e.file_name = fn) = k := by
  rw [gam_countP, h1, h2, Nat.one_mul]

theorem c10_duplicate_rows_witness :
    (get_articles_metadata exRawArts exMeta).countP
        (fun e => e.file_name = "a1908") = 2 :=
  c10_duplicate_rows exRawArts exMeta "a1908" 2
    (by decide) (by decide) (by decide)

/-! ### The string comparison used by the row sort -/

theorem charListLtB_irrefl : ∀ (l : List Char), charListLtB l l = false := by
  intro l
  induction l with
  | nil => rfl
  | cons a as ih => simp [charListLtB, lt_irrefl, ih]

theorem charListLtB_antisymm :
    ∀ (l₁ l₂ : List Char), charListLtB l₁ l₂ = false →
      charListLtB l₂ l₁ = false → l₁ = l₂ := by
  intro l₁
  induction l₁ with
  | nil =>
      intro l₂ h h'
      cases l₂ with
      | nil => rfl
      | cons b bs => simp [charListLtB] at h
  | cons a as ih =>
      intro l₂ h h'
      cases l₂ with
      | nil => simp [charListLtB] at h'
      | cons b bs =>
          by_cases hab : a < b
          · simp only [charListLtB, if_pos hab] at h
            cases h
          · by_cases hba : b < a
            · simp only [charListLtB, if_pos hba] at h'
              cases h'
            · have heq : a = b :=
                le_antisymm (le_of_not_lt hba) (le_of_not_lt hab)
              subst heq
              simp only [charListLtB, if_neg hab] at h h'
              rw [ih bs h h']

theorem charListLtB_trans :
    ∀ (l₁ l₂ l₃ : List Char), charListLtB l₁ l₂ = true →
      charListLtB l₂ l₃ = true → charListLtB l₁ l₃ = true := by
  intro l₁
  induction l₁ with
  | nil =>
      intro l₂ l₃ h h'
      cases l₂ with
      | nil => cases h
      | cons b bs =>
          cases l₃ with
          | nil => cases h'
          | cons c cs => simp [charListLtB]
  | cons a as ih =>
      intro l₂ l₃ h h'
      cases l₂ with
      | nil => simp [charListLtB] at h
      | cons b bs =>
          cases l₃ with
          | nil => simp [charListLtB] at h'
          | cons c cs =>
              by_cases hab : a < b
              · by_cases hbc : b < c
                · simp [charListLtB, lt_trans hab hbc]
                · by_cases hcb : c < b
                  · simp only [charListLtB, if_neg hbc, if_pos hcb] at h'
                    cases h'
                  · have heq : b = c :=
                      le_antisymm (le_of_not_lt hcb) (le_of_not_lt hbc)
                    subst heq
                    simp [charListLtB, hab]
              · by_cases hba : b < a
                · simp only [charListLtB, if_neg hab, if_pos hba] at h
                  cases h
                · have heq : a = b :=
                    le_antisymm (le_of_not_lt hba) (le_of_not_lt hab)
                  subst heq
                  simp only [charListLtB, if_neg hab] at h
                  by_cases hac : a < c
                  · simp [charListLtB, hac]
                  · by_cases hca : c < a
                    · simp only [charListLtB, if_neg hac, if_pos hca] at h'
                      cases h'
                    · have heq2 : a = c :=
                        le_antisymm (le_of_not_lt hca) (le_of_not_lt hac)
                      subst heq2
                      simp only [charListLtB, if_neg hac] at h' ⊢
                      exact ih bs cs h h'

theorem charListLtB_asymm (l₁ l₂ : List Char)
    (h : charListLtB l₁ l₂ = true) : charListLtB l₂ l₁ = false := by
  cases h' : charListLtB l₂ l₁ with
  | false => rfl
  | true =>
      have hirr := charListLtB_trans l₁ l₂ l₁ h h'
      rw [charListLtB_irrefl] at hirr
      cases hirr

theorem charListLtB_neg_trans (l₁ l₂ l₃ : List Char)
    (h1 : charListLtB l₁ l₂ = false) (h2 : charListLtB l₁ l₃ = true) :
    charListLtB l₂ l₃ = true := by
  cases hlt : charListLtB l₂ l₃ with
  | true => rfl
  | false =>
      cases hlt2 : charListLtB l₃ l₂ with
      | true =>
          have h12 := charListLtB_trans l₁ l₃ l₂ h2 hlt2
          rw [h12] at h1
          cases h1
      | false =>
          have heq := charListLtB_antisymm l₂ l₃ hlt hlt2
          rw [← heq] at h2
          rw [h2] at h1
          cases h1

/-! ### The stable insertion sort of `dict_to_list` -/

theorem mem_insertRow (a x : Row) :
    ∀ (l : List Row), x ∈ insertRow a l ↔ x = a ∨ x ∈ l := by
  intro l
  induction l with
  | nil => simp [insertRow]
  | cons y ys ih =>
      simp only [insertRow]
      by_cases h : strLtB y.1 a.1
      · rw [if_pos h]
        rw [List.mem_cons, ih, List.mem_cons]
        tauto
      · rw [if_neg h]
        simp only [List.mem_cons]

theorem insertRow_perm (a : Row) :
    ∀ (l : List Row), List.Perm (insertRow a l) (a :: l) := by
  intro l
  induction l with
  | nil => simp [insertRow]
  | cons y ys ih =>
      simp only [insertRow]
      by_cases h : strLtB y.1 a.1
      · rw [if_pos h]
        exact (ih.cons y).trans (List.Perm.swap a y ys)
      · rw [if_neg h]

theorem sortRows_perm : ∀ (l : List Row), List.Perm (sortRows l) l := by
  intro l
  induction l with
  | nil => simp [sortRows]
  | cons a ys ih =>
      simp only [sortRows]
      exact (insertRow_perm a (sortRows ys)).trans (ih.cons a)

theorem insertRow_sorted (a : Row) :
    ∀ (l : List Row), l.Pairwise rowKeyLe →
      (insertRow a l).Pairwise rowKeyLe := by
  intro l
  induction l with
  | nil => intro _; simp [insertRow, List.pairwise_cons, rowKeyLe]
  | cons x xs ih =>
      intro h
      rw [List.pairwise_cons] at h
      obtain ⟨hx, hxs⟩ := h
      simp only [insertRow]
      by_cases hc : strLtB x.1 a.1
      · rw [if_pos hc]
        rw [List.pairwise_cons]
        refine ⟨?_, ih hxs⟩
        intro y hy
        rcases (mem_insertRow a y xs).mp hy with hya | hyxs
        · subst hya
          rw [rowKeyLe, strLtB]
          rw [strLtB] at hc
          exact charListLtB_asymm x.1.data y.1.data hc
        · exact hx y hyxs
      · rw [if_neg hc]
        rw [List.pairwise_cons]
        refine ⟨?_, List.pairwise_cons.mpr ⟨hx, hxs⟩⟩
        intro y hy
        rcases List.mem_cons.mp hy with hyx | hyxs
        · subst hyx
          rw [rowKeyLe]
          exact Bool.of_not_eq_true hc
        · have hax : strLtB x.1 a.1 = false := Bool.of_not_eq_true hc
          have hyx : strLtB y.1 x.1 = false := hx y hyxs
          rw [rowKeyLe, strLtB]
          rw [strLtB] at hax hyx
          cases hya : charListLtB y.1.data a.1.data with
          | false => rfl
          | true =>
              have := charListLtB_neg_trans y.1.data x.1.data a.1.data
                hyx hya
              rw [this] at hax
              cases hax

theorem sortRows_sorted :
    ∀ (l : List Row), (sortRows l).Pairwise rowKeyLe := by
  intro l
  induction l with
  | nil => simp [sortRows]
  | cons a ys ih =>
      simp only [sortRows]
      exact insertRow_sorted a (sortRows ys) ih

/-! ### Structure of `dict_to_list` results (claims C2, C4, C8) -/

theorem dict_to_list_eq_some (d : Index) (rows : List Row)
    (h : dict_to_list d = some rows) :
    ∃ last, (sortRows (rowsAcc d)).getLast? = some last ∧
      rows = last :: (sortRows (rowsAcc d)).dropLast := by
  simp only [dict_to_list] at h
  cases hl : (sortRows (rowsAcc d)).getLast? with
  | none => rw [hl] at h; cases h
  | some last =>
      rw [hl] at h
      injection h with h
      exact ⟨last, rfl, h.symm⟩

/-- C2 counterexample: on the aggregation mapping of two articles dated
1908-10-02 and 1908-02-01, the rows after the header are not in ascending
calendar order: the unpadded string keys are sorted lexicographically, so
the row of the later date 1908-10-02 precedes the row of the earlier date
1908-02-01. -/
theorem c2_counterexample :
    dict_to_list exIndexC2 =
      some [("year-month-day", RowVal.raw (Sum.inr "crime")),
            (dateKey ⟨1908, 10, 2⟩, RowVal.ratio (Rat.divInt 1 1)),
            (dateKey ⟨1908, 2, 1⟩, RowVal.ratio (Rat.divInt 1 2))] ∧
      calLt ⟨1908, 2, 1⟩ ⟨1908, 10, 2⟩ :=
  ⟨by decide, by decide⟩

/-- C2 amended: whenever `dict_to_list` returns a row list, the first row is
one whose key is greatest in Python's string order (for aggregation outputs
of this script that is the `'year-month-day'` header row), and the remaining
rows are sorted ascending by the string order of their date keys —
lexicographic on the unpadded keys, not ascending calendar order. -/
theorem c2_rows_order (d : Index) (first : Row) (tail : List Row)
    (h : dict_to_list d = some (first :: tail)) :
    tail.Pairwise rowKeyLe ∧ ∀ r ∈ tail, rowKeyLe r first := by
  obtain ⟨last, hl, heq⟩ := dict_to_list_eq_some d (first :: tail) h
  injection heq with h1 h2
  have hne : sortRows (rowsAcc d) ≠ [] := by
    intro h0
    rw [h0] at hl
    cases hl
  have hsorted := sortRows_sorted (rowsAcc d)
  have hdecomp := List.dropLast_concat_getLast hne
  have hlast : last = (sortRows (rowsAcc d)).getLast hne := by
    rw [List.getLast?_eq_getLast _ hne] at hl
    injection hl with hl
    exact hl.symm
  rw [← hdecomp, List.pairwise_append] at hsorted
  obtain ⟨hp1, _, hp3⟩ := hsorted
  constructor
  · rw [h2]
    exact hp1
  · intro r hr
    rw [h2] at hr
    rw [h1, hlast]
    exact hp3 r hr _ (List.mem_singleton.mpr rfl)

theorem c2_rows_order_witness :
    ([(("1908-10-2", RowVal.ratio (Rat.divInt 1 1)) : Row),
      ("1908-2-1", RowVal.ratio (Rat.divInt 1 2))].Pairwise rowKeyLe) ∧
      ∀ r ∈ [(("1908-10-2", RowVal.ratio (Rat.divInt 1 1)) : Row),
             ("1908-2-1", RowVal.ratio (Rat.divInt 1 2))],
        rowKeyLe r ("year-month-day", RowVal.raw (Sum.inr "crime")) :=
  c2_rows_order exIndexC2 ("year-month-day", RowVal.raw (Sum.inr "crime"))
    [("1908-10-2", RowVal.ratio (Rat.divInt 1 1)),
     ("1908-2-1", RowVal.ratio (Rat.divInt 1 2))] (by decide)

theorem foldl_rowStep_perm :
    ∀ (d : Index) (acc : List Row),
      List.Perm (d.foldl rowStep acc) (acc ++ d.map rowOf) := by
  intro d
  induction d with
  | nil => intro acc; simp
  | cons kv rest ih =>
      intro acc
      rw [List.foldl_cons, List.map_cons]
      refine (ih (rowStep acc kv)).trans ?_
      have hstep : List.Perm (rowStep acc kv) (acc ++ [rowOf kv]) := by
        cases hr : tryRatio kv.2 with
        | some r =>
            simp only [rowStep, rowOf, hr]
            exact List.Perm.refl _
        | none =>
            simp only [rowStep, rowOf, hr]
            exact (List.perm_append_singleton _ _).symm
      refine (hstep.append_right (rest.map rowOf)).trans ?_
      rw [List.append_assoc, List.singleton_append]

theorem rowsAcc_perm (d : Index) :
    List.Perm (rowsAcc d) (d.map rowOf) := by
  have h := foldl_rowStep_perm d []
  simpa [rowsAcc] using h

theorem mem_dict_to_list (d : Index) (rows : List Row) (r : Row)
    (h : dict_to_list d = some rows) (hr : r ∈ rowsAcc d) : r ∈ rows := by
  obtain ⟨last, hl, heq⟩ := dict_to_list_eq_some d rows h
  have hs : r ∈ sortRows (rowsAcc d) :=
    (sortRows_perm (rowsAcc d)).mem_iff.mpr hr
  have hne : sortRows (rowsAcc d) ≠ [] := by
    intro h0
    rw [h0] at hl
    cases hl
  have hdecomp := List.dropLast_concat_getLast hne
  have hlast : last = (sortRows (rowsAcc d)).getLast hne := by
    rw [List.getLast?_eq_getLast _ hne] at hl
    injection hl with hl
    exact hl.symm
  rw [heq]
  rw [← hdecomp] at hs
  rcases List.mem_append.mp hs with h1 | h1
  · exact List.mem_cons.mpr (Or.inr h1)
  · have h2 := List.mem_singleton.mp h1
    exact List.mem_cons.mpr (Or.inl (by rw [h2, ← hlast]))

theorem dict_to_list_isSome (d : Index) (hne : rowsAcc d ≠ []) :
    ∃ rows, dict_to_list d = some rows := by
  have hsne : sortRows (rowsAcc d) ≠ [] := by
    intro h0
    have hp := sortRows_perm (rowsAcc d)
    rw [h0] at hp
    exact hne hp.symm.eq_nil
  cases hl : (sortRows (rowsAcc d)).getLast? with
  | none => exact absurd (List.getLast?_eq_none_iff.mp hl) hsne
  | some last =>
      refine ⟨last :: (sortRows (rowsAcc d)).dropLast, ?_⟩
      simp only [dict_to_list, hl]

/-- C4: a mapping containing a bucket whose total token count is 0 does not
make `dict_to_list` raise: the `ZeroDivisionError` of `values[0]/values[1]`
is caught by the bare `except:`, the loop runs `rows.insert(0, ...)` which
puts the bucket's raw `[date_key, values]` row at the front of the
accumulating row list (the header-placeholder treatment), and `dict_to_list`
still returns a row list containing that raw row. -/
theorem c4_zero_total_caught (pre suf : Index) (k : String) (c : Nat) :
    rowsAcc (pre ++ [(k, Sum.inl (c, 0))]) =
        (k, RowVal.raw (Sum.inl (c, 0))) :: rowsAcc pre ∧
      ∃ rows,
        dict_to_list (pre ++ (k, Sum.inl (c, 0)) :: suf) = some rows ∧
          (k, RowVal.raw (Sum.inl (c, 0))) ∈ rows := by
  constructor
  · rw [rowsAcc, List.foldl_append]
    simp [rowStep, tryRatio, rowsAcc]
  · have hmem : (k, RowVal.raw (Sum.inl (c, 0))) ∈
        rowsAcc (pre ++ (k, Sum.inl (c, 0)) :: suf) := by
      refine (rowsAcc_perm _).mem_iff.mpr ?_
      refine List.mem_map.mpr ⟨(k, Sum.inl (c, 0)), by simp, ?_⟩
      simp [rowOf, tryRatio]
    have hne : rowsAcc (pre ++ (k, Sum.inl (c, 0)) :: suf) ≠ [] := by
      intro h0
      rw [h0] at hmem
      cases hmem
    obtain ⟨rows, hrows⟩ := dict_to_list_isSome _ hne
    exact ⟨rows, hrows, mem_dict_to_list _ rows _ hrows hmem⟩

/-- C8: on the empty mapping (an empty corpus) the `rows.pop()` at the end
of `dict_to_list` pops from an empty list and raises `IndexError` instead of
returning an empty row list, so `csv_dump` fails before writing an empty
`results.csv`. -/
theorem c8_empty_dict_raises :
    dict_to_list [] = none ∧ csv_dump [] = none :=
  ⟨rfl, rfl⟩

/-! ### CSV round trip (claim C7) -/

theorem csvParseLine_csvLine (fields : List String)
    (hne : fields ≠ []) (hnc : ∀ f ∈ fields, (',' : Char) ∉ f.data) :
    csvParseLine (csvLine fields) = fields := by
  have h1 : ∀ l ∈ fields.map String.data, (',' : Char) ∉ l := by
    intro l hl
    obtain ⟨f, hf, rfl⟩ := List.mem_map.mp hl
    exact hnc f hf
  have h2 : fields.map String.data ≠ [] := by
    simpa using hne
  rw [csvParseLine, csvLine, List.splitOn_intercalate _ ',' h1 h2,
    List.map_map]
  have hid : (List.asString ∘ String.data) = id := funext fun s => rfl
  rw [hid, List.map_id]

/-- C7: writing the rows of an aggregation mapping to the CSV and reading
the CSV back yields the same (date key, rendered value) cell pairs, in the
same sorted order, as `dict_to_list` produced them (stated for rows whose
cells do not contain the delimiter; `csv.writer` emits such cells
verbatim). -/
theorem c7_csv_round_trip (d : Index) (rows : List Row)
    (h : dict_to_list d = some rows)
    (hnc : ∀ r ∈ rows, ∀ f ∈ rowFields r, (',' : Char) ∉ f.data) :
    (csv_dump d).map (fun lines => lines.map csvParseLine) =
      some (rows.map rowFields) := by
  rw [csv_dump, h]
  simp only [Option.map_some']
  congr 1
  rw [List.map_map]
  refine List.map_congr_left ?_
  intro r hr
  simp only [Function.comp_apply]
  exact csvParseLine_csvLine (rowFields r) (by simp [rowFields]) (hnc r hr)

theorem c7_csv_round_trip_witness :
    (csv_dump exIndexC2).map (fun lines => lines.map csvParseLine) =
      some (([(("year-month-day", RowVal.raw (Sum.inr "crime")) : Row),
              ("1908-10-2", RowVal.ratio (Rat.divInt 1 1)),
              ("1908-2-1", RowVal.ratio (Rat.divInt 1 2))]).map rowFields) :=
  c7_csv_round_trip exIndexC2
    [("year-month-day", RowVal.raw (Sum.inr "crime")),
     ("1908-10-2", RowVal.ratio (Rat.divInt 1 1)),
     ("1908-2-1", RowVal.ratio (Rat.divInt 1 2))]
    (by decide) (by decide)
